import Mathlib

/-!
# native-lib.cpp: the JNI bridge `startNodeWithArguments`

A shallow embedding of `app/src/main/cpp/native-lib.cpp`.  The function takes a
Java `String[]`, copies every element into a freshly allocated C string, calls
`node::Start(argc, argv)`, frees the copies and returns the status.

What the function does not own is taken as input of the model:

* the Java array is given by what `GetObjectArrayElement` followed by
  `GetStringUTFChars` yields for each element: `none` for a null pointer,
  `some bs` for a view whose bytes before the terminating NUL are `bs`;
* the allocator is an oracle telling which `new[]` of the call obtains memory;
* `node::Start` is an arbitrary function of `(argc, argv)`.

A run of the function is its list of observable events and its outcome.
-/

namespace NativeLib

/-- A `char` buffer obtained from `new char[n]`: `n` cells, `none` while a cell
has not been written. -/
abbrev Buf := List (Option Nat)

/-- The pointer array `char **argv`: a cell is `none` until a buffer has been
stored in it. -/
abbrev Argv := List (Option Buf)

/-- A Java array element seen through JNI: the byte view handed back by
`GetStringUTFChars` (its bytes before the terminator), or `none` when `str` is
a null pointer (a null element, or a string the VM could not convert). -/
abbrev JElem := Option (List Nat)

/-- Everything observable the function does, in program order. -/
inductive Event where
  /-- line 13, `new char *[argc]`. -/
  | newArgv (argc : Nat)
  /-- line 17, `GetStringUTFChars` on element `i` and what it yielded. -/
  | getChars (i : Nat) (str : JElem)
  /-- line 19, `new char[len + 1]` for element `i`. -/
  | newBuf (i : Nat) (size : Nat)
  /-- line 20, `strcpy(argv[i], str)`, with the buffer as it is afterwards. -/
  | strcpy (i : Nat) (buf : Buf)
  /-- line 21, `ReleaseStringUTFChars` on element `i`. -/
  | releaseChars (i : Nat)
  /-- line 24, `node::Start(argc, argv)`. -/
  | start (argc : Int) (argv : Argv)
  /-- line 27, `delete[] argv[i]`. -/
  | deleteBuf (i : Nat)
  /-- line 29, `delete[] argv`. -/
  | deleteArgv
  deriving DecidableEq, Repr

/-- The two ways the function can end without returning. -/
inductive Fault where
  /-- a `new[]` threw `std::bad_alloc` (or `std::bad_array_new_length`); the
  function has no handler, the exception leaves it. -/
  | badAlloc
  /-- the run reached undefined behaviour (null pointer read, write outside a
  buffer, signed overflow). -/
  | undefined
  deriving DecidableEq, Repr

/-- How a call ends. -/
inductive Outcome where
  | returned (result : Int)
  | failed (f : Fault)
  deriving DecidableEq, Repr

/-- A call: what it did and how it ended. -/
structure Run where
  trace : List Event
  outcome : Outcome
  deriving DecidableEq, Repr

/-- The collaborators of the function that are not part of the repository. -/
structure Ext where
  /-- Whether the `k`-th `new[]` of a call obtains memory: `k = 0` is the
  pointer array, `k = i + 1` the buffer of element `i`. -/
  newOk : Nat → Bool
  /-- The entry point `node::Start`. -/
  Start : Int → Argv → Int

/-- The largest `int`. -/
def INT_MAX : Int := 2 ^ 31 - 1

/-- Conversion of a `size_t` to the 32-bit `int`: the value modulo `2^32`
taken in the range `[-2^31, 2^31)`. -/
def toInt32 (n : Nat) : Int :=
  if n % 2 ^ 32 < 2 ^ 31 then ((n % 2 ^ 32 : Nat) : Int) else ((n % 2 ^ 32 : Nat) : Int) - 2 ^ 32

/-- `strlen` over the memory at `str`: the number of bytes before the first
zero byte; `none` when the memory holds no zero byte (the scan leaves it). -/
def strlen : List Nat → Option Nat
  | [] => none
  | c :: cs => if c = 0 then some 0 else (strlen cs).map (fun n => n + 1)

/-- The loop of `strcpy`, writing `dst[j]`, `dst[j+1]`, ... from the bytes of
the source up to and including its first zero byte; `none` when a write falls
outside `dst` or the source holds no zero byte. -/
def strcpyFrom (dst : Buf) (j : Nat) : List Nat → Option Buf
  | [] => none
  | c :: cs =>
    if j < dst.length then
      if c = 0 then some (dst.set j (some c))
      else strcpyFrom (dst.set j (some c)) (j + 1) cs
    else none

/-- `strcpy(dst, src)`. -/
def strcpy (dst : Buf) (src : List Nat) : Option Buf := strcpyFrom dst 0 src

/-- The size asked by `new char[len + 1]` where `int len = strlen(str)` and
`strlen(str) = L`: undefined when `len + 1` overflows `int`, an exception when
`len + 1` is negative. -/
def newSize (L : Nat) : Except Fault Nat :=
  let len := toInt32 L
  if len = INT_MAX then .error .undefined
  else if len + 1 < 0 then .error .badAlloc
  else .ok (len + 1).toNat

/-- The body of the first loop (lines 16 to 21) for element `i`. -/
def convertElement (ext : Ext) (i : Nat) (str : JElem) (argv : Argv) :
    List Event × Except Fault Argv :=
  match str with
  | none => ([.getChars i none], .error .undefined)
  | some bs =>
    match strlen (bs ++ [0]) with
    | none => ([.getChars i str], .error .undefined)
    | some L =>
      match newSize L with
      | .error f => ([.getChars i str], .error f)
      | .ok size =>
        if ext.newOk (i + 1) = false then ([.getChars i str], .error .badAlloc)
        else
          match strcpy (List.replicate size none) (bs ++ [0]) with
          | none => ([.getChars i str, .newBuf i size], .error .undefined)
          | some buf =>
            ([.getChars i str, .newBuf i size, .strcpy i buf, .releaseChars i],
              .ok (argv.set i (some buf)))

/-- The first loop (lines 15 to 22) from index `i` on, over the elements
`arguments[i], arguments[i+1], ...` still to convert. -/
def marshalFrom (ext : Ext) : Nat → List JElem → Argv → List Event × Except Fault Argv
  | _, [], argv => ([], .ok argv)
  | i, str :: rest, argv =>
    match convertElement ext i str argv with
    | (t, .error f) => (t, .error f)
    | (t, .ok argv1) =>
      match marshalFrom ext (i + 1) rest argv1 with
      | (t2, r) => (t ++ t2, r)

/-- The second loop (lines 26 to 28) from index `i` on, over the cells
`argv[i], argv[i+1], ...` of the pointer array (it has `argc` cells); `false`
when a cell holds no pointer, `delete[]` of which is undefined. -/
def releaseFrom : Nat → Argv → List Event × Bool
  | _, [] => ([], true)
  | _, none :: _ => ([], false)
  | i, some _ :: rest =>
    match releaseFrom (i + 1) rest with
    | (t, ok) => (.deleteBuf i :: t, ok)

/-- The JNI function (lines 6 to 32). -/
def Java_com_example_danmuapiapp_NodeBridge_startNodeWithArguments
    (ext : Ext) (arguments : List JElem) : Run :=
  let argc := arguments.length
  if ext.newOk 0 = false then ⟨[], .failed .badAlloc⟩
  else
    match marshalFrom ext 0 arguments (List.replicate argc none) with
    | (t, .error f) => ⟨.newArgv argc :: t, .failed f⟩
    | (t, .ok argv) =>
      let result := ext.Start argc argv
      match releaseFrom 0 argv with
      | (t2, false) => ⟨.newArgv argc :: t ++ [.start argc argv] ++ t2, .failed .undefined⟩
      | (t2, true) =>
        ⟨.newArgv argc :: t ++ [.start argc argv] ++ t2 ++ [.deleteArgv], .returned result⟩

/-- Successive calls in one process: the function keeps no state of its own,
so each call runs as the first one does; a call that does not return ends the
process. -/
def runProcess : List (Ext × List JElem) → List Event
  | [] => []
  | (ext, arguments) :: rest =>
    let r := Java_com_example_danmuapiapp_NodeBridge_startNodeWithArguments ext arguments
    match r.outcome with
    | .returned _ => r.trace ++ runProcess rest
    | .failed _ => r.trace

/-! ## What a trace shows -/

/-- The trace of the loop body for an element whose view is `bs`, when nothing fails. -/
def elementTrace (i : Nat) (bs : List Nat) : List Event :=
  [.getChars i (some bs), .newBuf i (bs.length + 1), .strcpy i ((bs ++ [0]).map some),
    .releaseChars i]

/-- The trace of the first loop from index `i` on, when nothing fails. -/
def marshalTrace : Nat → List (List Nat) → List Event
  | _, [] => []
  | i, bs :: rest => elementTrace i bs ++ marshalTrace (i + 1) rest

/-- The argument vector holding a null-terminated copy of each view. -/
def argvOf (views : List (List Nat)) : Argv :=
  views.map (fun bs => some ((bs ++ [0]).map some))

/-- Events of the first loop. -/
def Event.isMarshal : Event → Bool
  | .getChars _ _ => true
  | .newBuf _ _ => true
  | .strcpy _ _ => true
  | .releaseChars _ => true
  | _ => false

/-- The blocks the function obtains from `new[]`. -/
inductive Block where
  | argv
  | buf (i : Nat)
  deriving DecidableEq, Repr

/-- The blocks allocated along a trace, in order. -/
def allocations (t : List Event) : List Block :=
  t.filterMap (fun e =>
    match e with
    | .newArgv _ => some .argv
    | .newBuf i _ => some (.buf i)
    | _ => none)

/-- The blocks released along a trace, in order. -/
def releases (t : List Event) : List Block :=
  t.filterMap (fun e =>
    match e with
    | .deleteBuf i => some (.buf i)
    | .deleteArgv => some .argv
    | _ => none)

/-- The calls of the entry point along a trace, in order. -/
def startCalls (t : List Event) : List (Int × Argv) :=
  t.filterMap (fun e =>
    match e with
    | .start argc argv => some (argc, argv)
    | _ => none)

/-- What the entry point reads through a `char *`: the bytes of the buffer
before its first zero byte; `none` when it meets an unwritten cell or the end
of the buffer first. -/
def readCString : Buf → Option (List Nat)
  | [] => none
  | none :: _ => none
  | some c :: rest => if c = 0 then some [] else (readCString rest).map (fun cs => c :: cs)

/-- An entry point that ignores its arguments and returns `r`, with an
allocator that never fails. -/
def stubExt (r : Int) : Ext := ⟨fun _ => true, fun _ _ => r⟩

/-- The views of the Java array `["node", "--version"]`. -/
def nodeVersion : List (List Nat) :=
  [[110, 111, 100, 101], [45, 45, 118, 101, 114, 115, 105, 111, 110]]

/-- The views of the Java array `["é", "日本"]`: every byte is `0x80` or more. -/
def multiByte : List (List Nat) := [[0xC3, 0xA9], [0xE6, 0x97, 0xA5, 0xE6, 0x9C, 0xAC]]

/-- An allocator that serves the pointer array and the first `n` buffers and
fails from then on, with an entry point returning 0. -/
def failAfter (n : Nat) : Ext := ⟨fun k => decide (k ≤ n), fun _ _ => 0⟩

/-- Whether an outcome tells the caller anything: a returned status or a C++
exception does, undefined behaviour does not. -/
def Outcome.isSignal : Outcome → Bool
  | .returned _ => true
  | .failed .badAlloc => true
  | .failed .undefined => false

/-! ## Lemmas -/

theorem toInt32_of_lt (L : Nat) (h : L < 2 ^ 31) : toInt32 L = (L : Int) := by
  unfold toInt32
  have hm : L % 2 ^ 32 = L := Nat.mod_eq_of_lt (by omega)
  rw [hm, if_pos h]

theorem newSize_of_le (L : Nat) (h : L ≤ 2 ^ 31 - 2) : newSize L = .ok (L + 1) := by
  have h1 : toInt32 L = (L : Int) := toInt32_of_lt L (by omega)
  unfold newSize INT_MAX
  simp only [h1]
  rw [if_neg (by omega), if_neg (by omega)]
  congr 1

theorem strlen_view (bs : List Nat) (hz : ∀ b ∈ bs, b ≠ 0) :
    strlen (bs ++ [0]) = some bs.length := by
  induction bs with
  | nil => simp [strlen]
  | cons c cs ih =>
    have hc : c ≠ 0 := hz c (by simp)
    have := ih (fun b hb => hz b (by simp [hb]))
    simp [strlen, hc, this]

theorem strcpyFrom_view (bs : List Nat) (hz : ∀ b ∈ bs, b ≠ 0) (pre : Buf) (k : Nat) :
    strcpyFrom (pre ++ List.replicate (bs.length + 1 + k) none) pre.length (bs ++ [0])
      = some (pre ++ (bs ++ [0]).map some ++ List.replicate k none) := by
  induction bs generalizing pre with
  | nil =>
    have : (0 : Nat) + 1 + k = k + 1 := by omega
    simp [strcpyFrom, this, List.replicate_succ]
  | cons c cs ih =>
    have hc : c ≠ 0 := hz c (by simp)
    have h := ih (fun b hb => hz b (by simp [hb])) (pre ++ [some c])
    have hset : (pre ++ List.replicate ((c :: cs).length + 1 + k) none).set pre.length (some c)
        = (pre ++ [some c]) ++ List.replicate (cs.length + 1 + k) none := by
      have : (c :: cs).length + 1 + k = (cs.length + 1 + k) + 1 := by
        simp only [List.length_cons]; omega
      rw [this, List.replicate_succ]
      simp
    have hl : (pre ++ [some c]).length = pre.length + 1 := by simp
    rw [hl] at h
    show strcpyFrom _ _ (c :: (cs ++ [0])) = _
    rw [strcpyFrom, if_pos (by simp), if_neg hc, hset, h]
    simp

theorem strcpy_view (bs : List Nat) (hz : ∀ b ∈ bs, b ≠ 0) :
    strcpy (List.replicate (bs.length + 1) none) (bs ++ [0]) = some ((bs ++ [0]).map some) := by
  have := strcpyFrom_view bs hz [] 0
  simpa [strcpy] using this

theorem convertElement_view (ext : Ext) (i : Nat) (bs : List Nat) (argv : Argv)
    (hnew : ext.newOk (i + 1) = true) (hz : ∀ b ∈ bs, b ≠ 0) (hlen : bs.length ≤ 2 ^ 31 - 2) :
    convertElement ext i (some bs) argv
      = (elementTrace i bs, .ok (argv.set i (some ((bs ++ [0]).map some)))) := by
  simp [convertElement, strlen_view bs hz, newSize_of_le bs.length hlen, hnew,
    strcpy_view bs hz, elementTrace]

theorem marshalFrom_views (ext : Ext) (views : List (List Nat)) (done : Argv)
    (hnew : ∀ j, j < views.length → ext.newOk (done.length + 1 + j) = true)
    (hz : ∀ bs ∈ views, ∀ b ∈ bs, b ≠ 0) (hlen : ∀ bs ∈ views, bs.length ≤ 2 ^ 31 - 2) :
    marshalFrom ext done.length (views.map some) (done ++ List.replicate views.length none)
      = (marshalTrace done.length views, .ok (done ++ argvOf views)) := by
  induction views generalizing done with
  | nil => simp [marshalFrom, marshalTrace, argvOf]
  | cons bs rest ih =>
    have h0 : ext.newOk (done.length + 1) = true := by simpa using hnew 0 (by simp)
    have hc := convertElement_view ext done.length bs
      (done ++ List.replicate (bs :: rest).length none) h0 (hz bs (by simp)) (hlen bs (by simp))
    have hset : (done ++ List.replicate (bs :: rest).length none).set done.length
          (some ((bs ++ [0]).map some))
        = (done ++ [some ((bs ++ [0]).map some)]) ++ List.replicate rest.length none := by
      simp [List.replicate_succ]
    have hl : (done ++ [some ((bs ++ [0]).map some)]).length = done.length + 1 := by simp
    have h := ih (done ++ [some ((bs ++ [0]).map some)])
      (fun j hj => by
        rw [hl]
        have := hnew (j + 1) (by simp; omega)
        rw [← this]; congr 1; omega)
      (fun b hb => hz b (by simp [hb])) (fun b hb => hlen b (by simp [hb]))
    rw [hl] at h
    simp only [List.map_cons, marshalFrom, hc, hset, h, marshalTrace]
    simp [argvOf]

theorem releaseFrom_some (bufs : List Buf) (i : Nat) :
    releaseFrom i (bufs.map some) = ((List.range' i bufs.length).map Event.deleteBuf, true) := by
  induction bufs generalizing i with
  | nil => simp [releaseFrom]
  | cons b rest ih => simp [releaseFrom, ih (i + 1), List.range'_succ]

theorem argvOf_eq_map (views : List (List Nat)) :
    argvOf views = (views.map (fun bs => (bs ++ [0]).map some)).map some := by
  simp [argvOf]

/-- The whole run when every view is a C string short enough for `int` and
every allocation succeeds. -/
theorem run_views (ext : Ext) (views : List (List Nat))
    (hnew : ∀ k, k ≤ views.length → ext.newOk k = true)
    (hz : ∀ bs ∈ views, ∀ b ∈ bs, b ≠ 0) (hlen : ∀ bs ∈ views, bs.length ≤ 2 ^ 31 - 2) :
    Java_com_example_danmuapiapp_NodeBridge_startNodeWithArguments ext (views.map some)
      = ⟨.newArgv views.length :: marshalTrace 0 views
            ++ [.start views.length (argvOf views)]
            ++ (List.range' 0 views.length).map Event.deleteBuf ++ [.deleteArgv],
          .returned (ext.Start views.length (argvOf views))⟩ := by
  have h0 : ext.newOk 0 = true := hnew 0 (by omega)
  have hm := marshalFrom_views ext views [] (fun j hj => hnew _ (by simp; omega)) hz hlen
  simp only [List.length_nil, List.nil_append] at hm
  have hr := releaseFrom_some (views.map (fun bs => (bs ++ [0]).map some)) 0
  rw [← argvOf_eq_map] at hr
  simp only [List.length_map] at hr
  simp only [Java_com_example_danmuapiapp_NodeBridge_startNodeWithArguments, h0,
    List.length_map, hm, hr]
  simp

theorem convertElement_isMarshal (ext : Ext) (i : Nat) (str : JElem) (argv : Argv) :
    ∀ e ∈ (convertElement ext i str argv).1, e.isMarshal = true := by
  unfold convertElement
  split
  · simp [Event.isMarshal]
  · split
    · simp [Event.isMarshal]
    · split
      · simp [Event.isMarshal]
      · split
        · simp [Event.isMarshal]
        · split <;> simp [Event.isMarshal]

theorem convertElement_ok_inv (ext : Ext) (i : Nat) (str : JElem) (argv argv1 : Argv)
    (t : List Event) (h : convertElement ext i str argv = (t, .ok argv1)) :
    ∃ bs buf, str = some bs ∧ argv1 = argv.set i (some buf) := by
  cases str with
  | none => simp [convertElement] at h
  | some bs =>
    unfold convertElement at h
    dsimp only at h
    split at h
    · simp at h
    · split at h
      · simp at h
      · split at h
        · simp at h
        · split at h
          · simp at h
          · simp at h
            exact ⟨bs, _, rfl, h.2.symm⟩

theorem marshalFrom_isMarshal (ext : Ext) (arguments : List JElem) (i : Nat) (argv : Argv) :
    ∀ e ∈ (marshalFrom ext i arguments argv).1, e.isMarshal = true := by
  induction arguments generalizing i argv with
  | nil => simp [marshalFrom]
  | cons str rest ih =>
    intro e he
    have hc := convertElement_isMarshal ext i str argv
    rw [marshalFrom] at he
    split at he
    · rename_i t f heq
      rw [heq] at hc
      exact hc e he
    · rename_i t argv1 heq
      rw [heq] at hc
      have h2 := ih (i + 1) argv1
      simp only [List.mem_append] at he
      rcases he with he | he
      · exact hc e he
      · exact h2 e he

theorem marshalFrom_ok_inv (ext : Ext) (arguments : List JElem) (done : List Buf)
    (t : List Event) (argv1 : Argv)
    (h : marshalFrom ext done.length arguments
          (done.map some ++ List.replicate arguments.length none) = (t, .ok argv1)) :
    ∃ bufs : List Buf, bufs.length = arguments.length ∧ argv1 = (done ++ bufs).map some
      ∧ ∀ str ∈ arguments, str ≠ none := by
  induction arguments generalizing done t with
  | nil =>
    simp [marshalFrom] at h
    exact ⟨[], rfl, by simp [h.2], by simp⟩
  | cons str rest ih =>
    rw [marshalFrom] at h
    split at h
    · simp at h
    · rename_i t1 argv2 heq
      obtain ⟨bs, buf, hstr, hargv⟩ := convertElement_ok_inv ext _ _ _ _ _ heq
      have hset : argv2 = (done ++ [buf]).map some ++ List.replicate rest.length none := by
        rw [hargv]
        have : done.length = (done.map some).length := by simp
        rw [this]
        simp [List.replicate_succ]
      have hl : (done ++ [buf]).length = done.length + 1 := by simp
      cases hm : marshalFrom ext (done.length + 1) rest argv2 with
      | mk t2 r =>
        rw [hm] at h
        simp at h
        rw [hset, ← hl, h.2] at hm
        obtain ⟨bufs, hlen, hres, hall⟩ := ih (done ++ [buf]) t2 hm
        refine ⟨buf :: bufs, by simp [hlen], by simp [hres], ?_⟩
        intro s hs
        simp at hs
        rcases hs with hs | hs
        · simp [hs, hstr]
        · exact hall s hs

theorem startCalls_of_isMarshal (t : List Event) (h : ∀ e ∈ t, e.isMarshal = true) :
    startCalls t = [] := by
  induction t with
  | nil => rfl
  | cons e t ih =>
    have he := h e (by simp)
    have := ih (fun x hx => h x (by simp [hx]))
    cases e <;> simp_all [startCalls, Event.isMarshal]

theorem releases_of_isMarshal (t : List Event) (h : ∀ e ∈ t, e.isMarshal = true) :
    releases t = [] := by
  induction t with
  | nil => rfl
  | cons e t ih =>
    have he := h e (by simp)
    have := ih (fun x hx => h x (by simp [hx]))
    cases e <;> simp_all [releases, Event.isMarshal]

theorem startCalls_append (s t : List Event) : startCalls (s ++ t) = startCalls s ++ startCalls t := by
  simp [startCalls]

theorem releases_append (s t : List Event) : releases (s ++ t) = releases s ++ releases t := by
  simp [releases]

theorem allocations_append (s t : List Event) :
    allocations (s ++ t) = allocations s ++ allocations t := by
  simp [allocations]

theorem marshalTrace_isMarshal (views : List (List Nat)) (i : Nat) :
    ∀ e ∈ marshalTrace i views, e.isMarshal = true := by
  induction views generalizing i with
  | nil => simp [marshalTrace]
  | cons bs rest ih =>
    intro e he
    simp only [marshalTrace, List.mem_append] at he
    rcases he with he | he
    · simp [elementTrace] at he
      rcases he with he | he | he | he <;> simp [he, Event.isMarshal]
    · exact ih (i + 1) e he

theorem allocations_marshalTrace (views : List (List Nat)) (i : Nat) :
    allocations (marshalTrace i views) = (List.range' i views.length).map Block.buf := by
  induction views generalizing i with
  | nil => simp [marshalTrace, allocations]
  | cons bs rest ih =>
    have := ih (i + 1)
    simp only [marshalTrace, allocations_append, this]
    simp [elementTrace, allocations, List.range'_succ]

theorem releases_deleteBuf (i n : Nat) :
    releases ((List.range' i n).map Event.deleteBuf) = (List.range' i n).map Block.buf := by
  induction n generalizing i with
  | zero => simp [releases]
  | succ n ih =>
    have := ih (i + 1)
    simp only [releases] at this
    simp [List.range'_succ, releases, this]

theorem startCalls_deleteBuf (i n : Nat) :
    startCalls ((List.range' i n).map Event.deleteBuf) = [] := by
  induction n generalizing i with
  | zero => simp [startCalls]
  | succ n ih =>
    have := ih (i + 1)
    simp only [startCalls] at this
    simp [List.range'_succ, startCalls, this]

theorem allocations_deleteBuf (i n : Nat) :
    allocations ((List.range' i n).map Event.deleteBuf) = [] := by
  induction n generalizing i with
  | zero => simp [allocations]
  | succ n ih =>
    have := ih (i + 1)
    simp only [allocations] at this
    simp [List.range'_succ, allocations, this]

/-- Every run that returns went through the whole function: the first loop
converted every element, the entry point was called once, and the second loop
and line 29 released what was allocated. -/
theorem run_returned_inv (ext : Ext) (arguments : List JElem) (r : Int)
    (h : (Java_com_example_danmuapiapp_NodeBridge_startNodeWithArguments ext arguments).outcome
          = .returned r) :
    ∃ (t : List Event) (bufs : List Buf),
      (∀ e ∈ t, e.isMarshal = true) ∧ bufs.length = arguments.length ∧
      (∀ str ∈ arguments, str ≠ none) ∧
      r = ext.Start arguments.length (bufs.map some) ∧
      (Java_com_example_danmuapiapp_NodeBridge_startNodeWithArguments ext arguments).trace
        = .newArgv arguments.length :: t ++ [.start arguments.length (bufs.map some)]
            ++ (List.range' 0 arguments.length).map Event.deleteBuf ++ [.deleteArgv] := by
  unfold Java_com_example_danmuapiapp_NodeBridge_startNodeWithArguments at h ⊢
  dsimp only at h ⊢
  split at h
  · simp at h
  · rename_i hn
    rw [if_neg hn]
    have hmm := marshalFrom_isMarshal ext arguments 0 (List.replicate arguments.length none)
    cases hm : marshalFrom ext 0 arguments (List.replicate arguments.length none) with
    | mk t res =>
      rw [hm] at h hmm
      cases res with
      | error f => simp at h
      | ok argv =>
        obtain ⟨bufs, hlen, hargv, hall⟩ := marshalFrom_ok_inv ext arguments [] t argv
          (by simpa using hm)
        simp only [List.nil_append] at hargv
        subst hargv
        have hr := releaseFrom_some bufs 0
        rw [hlen] at hr
        dsimp only at h ⊢
        rw [hr] at h ⊢
        dsimp only at h ⊢
        refine ⟨t, bufs, hmm, hlen, hall, ?_, rfl⟩
        simpa using h.symm

/-- A run that does not return never got past the first loop. -/
theorem run_failed_inv (ext : Ext) (arguments : List JElem) (f : Fault)
    (h : (Java_com_example_danmuapiapp_NodeBridge_startNodeWithArguments ext arguments).outcome
          = .failed f) :
    (Java_com_example_danmuapiapp_NodeBridge_startNodeWithArguments ext arguments).trace = [] ∨
    ∃ t : List Event, (∀ e ∈ t, e.isMarshal = true) ∧
      (Java_com_example_danmuapiapp_NodeBridge_startNodeWithArguments ext arguments).trace
        = .newArgv arguments.length :: t := by
  unfold Java_com_example_danmuapiapp_NodeBridge_startNodeWithArguments at h ⊢
  dsimp only at h ⊢
  split at h
  · rename_i hn
    left
    rw [if_pos hn]
  · rename_i hn
    right
    rw [if_neg hn]
    have hmm := marshalFrom_isMarshal ext arguments 0 (List.replicate arguments.length none)
    cases hm : marshalFrom ext 0 arguments (List.replicate arguments.length none) with
    | mk t res =>
      rw [hm] at h hmm
      cases res with
      | error f => exact ⟨t, hmm, rfl⟩
      | ok argv =>
        obtain ⟨bufs, hlen, hargv, hall⟩ := marshalFrom_ok_inv ext arguments [] t argv
          (by simpa using hm)
        simp only [List.nil_append] at hargv
        subst hargv
        have hr := releaseFrom_some bufs 0
        dsimp only at h
        rw [hr] at h
        simp at h

theorem readCString_view (bs : List Nat) (hz : ∀ b ∈ bs, b ≠ 0) :
    readCString ((bs ++ [0]).map some) = some bs := by
  induction bs with
  | nil => simp [readCString]
  | cons c cs ih =>
    have hc : c ≠ 0 := hz c (by simp)
    have := ih (fun b hb => hz b (by simp [hb]))
    simp only [List.map_append, List.map_cons, List.map_nil] at this
    simp [readCString, hc, this]

theorem toInt32_lt (L : Nat) : toInt32 L < 2 ^ 31 := by
  unfold toInt32
  split <;> omega

theorem toInt32_ge (L : Nat) : -(2 ^ 31) ≤ toInt32 L := by
  unfold toInt32
  split <;> omega

theorem toInt32_modEq (L : Nat) : ((L : Int) - toInt32 L) % 2 ^ 32 = 0 := by
  unfold toInt32
  split <;> omega

theorem newSize_ok_inv (L size : Nat) (h : newSize L = .ok size) :
    (size : Int) = toInt32 L + 1 := by
  unfold newSize at h
  dsimp only at h
  split at h
  · simp at h
  · split at h
    · simp at h
    · rename_i h1 h2
      simp only [Except.ok.injEq] at h
      omega

theorem marshalFrom_append (ext : Ext) (views : List (List Nat)) (tail : List JElem)
    (done : Argv)
    (hnew : ∀ j, j < views.length → ext.newOk (done.length + 1 + j) = true)
    (hz : ∀ bs ∈ views, ∀ b ∈ bs, b ≠ 0) (hlen : ∀ bs ∈ views, bs.length ≤ 2 ^ 31 - 2) :
    marshalFrom ext done.length (views.map some ++ tail)
        (done ++ List.replicate (views.length + tail.length) none)
      = (marshalTrace done.length views ++
          (marshalFrom ext (done.length + views.length) tail
            (done ++ argvOf views ++ List.replicate tail.length none)).1,
         (marshalFrom ext (done.length + views.length) tail
            (done ++ argvOf views ++ List.replicate tail.length none)).2) := by
  induction views generalizing done with
  | nil => simp [marshalTrace, argvOf]
  | cons bs rest ih =>
    have h0 : ext.newOk (done.length + 1) = true := by simpa using hnew 0 (by simp)
    have hc := convertElement_view ext done.length bs
      (done ++ List.replicate ((bs :: rest).length + tail.length) none) h0
      (hz bs (by simp)) (hlen bs (by simp))
    have hset : (done ++ List.replicate ((bs :: rest).length + tail.length) none).set done.length
          (some ((bs ++ [0]).map some))
        = (done ++ [some ((bs ++ [0]).map some)]) ++ List.replicate (rest.length + tail.length) none := by
      have : (bs :: rest).length + tail.length = (rest.length + tail.length) + 1 := by
        simp only [List.length_cons]; omega
      rw [this]
      simp [List.replicate_succ]
    have hl : (done ++ [some ((bs ++ [0]).map some)]).length = done.length + 1 := by simp
    have h := ih (done ++ [some ((bs ++ [0]).map some)])
      (fun j hj => by
        rw [hl]
        have := hnew (j + 1) (by simp; omega)
        rw [← this]; congr 1; omega)
      (fun b hb => hz b (by simp [hb])) (fun b hb => hlen b (by simp [hb]))
    rw [hl] at h
    have e1 : done.length + (bs :: rest).length = done.length + 1 + rest.length := by
      simp only [List.length_cons]; omega
    have e2 : done ++ argvOf (bs :: rest) = done ++ [some ((bs ++ [0]).map some)] ++ argvOf rest := by
      simp [argvOf]
    rw [e1, e2]
    simp only [List.map_cons, List.cons_append, marshalFrom, hc, hset, marshalTrace,
      List.append_eq]
    rw [h]
    simp

/-- The run when element `views.length` has a null byte view and everything
before it went well. -/
theorem run_null (ext : Ext) (views : List (List Nat)) (rest : List JElem)
    (hnew : ∀ k, k ≤ views.length → ext.newOk k = true)
    (hz : ∀ bs ∈ views, ∀ b ∈ bs, b ≠ 0) (hlen : ∀ bs ∈ views, bs.length ≤ 2 ^ 31 - 2) :
    Java_com_example_danmuapiapp_NodeBridge_startNodeWithArguments ext
        (views.map some ++ none :: rest)
      = ⟨.newArgv (views.length + (rest.length + 1)) :: marshalTrace 0 views
            ++ [.getChars views.length none],
          .failed .undefined⟩ := by
  have h0 : ext.newOk 0 = true := hnew 0 (by omega)
  have hm := marshalFrom_append ext views (none :: rest) []
    (fun j hj => hnew _ (by simp; omega)) hz hlen
  simp only [List.length_nil, List.nil_append, Nat.zero_add, List.length_cons] at hm
  simp only [Java_com_example_danmuapiapp_NodeBridge_startNodeWithArguments, h0,
    List.length_map, List.length_append, List.length_cons, hm]
  simp [marshalFrom, convertElement]

/-- The run when the buffer of element `views.length` cannot be allocated and
everything before it went well. -/
theorem run_badAlloc (ext : Ext) (views : List (List Nat)) (bs : List Nat) (rest : List JElem)
    (hnew : ∀ k, k ≤ views.length → ext.newOk k = true)
    (hfail : ext.newOk (views.length + 1) = false)
    (hz : ∀ bs ∈ views, ∀ b ∈ bs, b ≠ 0) (hlen : ∀ bs ∈ views, bs.length ≤ 2 ^ 31 - 2)
    (hz1 : ∀ b ∈ bs, b ≠ 0) (hlen1 : bs.length ≤ 2 ^ 31 - 2) :
    Java_com_example_danmuapiapp_NodeBridge_startNodeWithArguments ext
        (views.map some ++ some bs :: rest)
      = ⟨.newArgv (views.length + (rest.length + 1)) :: marshalTrace 0 views
            ++ [.getChars views.length (some bs)],
          .failed .badAlloc⟩ := by
  have h0 : ext.newOk 0 = true := hnew 0 (by omega)
  have hm := marshalFrom_append ext views (some bs :: rest) []
    (fun j hj => hnew _ (by simp; omega)) hz hlen
  simp only [List.length_nil, List.nil_append, Nat.zero_add, List.length_cons] at hm
  simp only [Java_com_example_danmuapiapp_NodeBridge_startNodeWithArguments, h0,
    List.length_map, List.length_append, List.length_cons, hm]
  simp [marshalFrom, convertElement, strlen_view bs hz1, newSize_of_le bs.length hlen1, hfail]

theorem startCalls_run_views (ext : Ext) (views : List (List Nat))
    (hnew : ∀ k, k ≤ views.length → ext.newOk k = true)
    (hz : ∀ bs ∈ views, ∀ b ∈ bs, b ≠ 0) (hlen : ∀ bs ∈ views, bs.length ≤ 2 ^ 31 - 2) :
    startCalls (Java_com_example_danmuapiapp_NodeBridge_startNodeWithArguments ext
        (views.map some)).trace = [((views.length : Int), argvOf views)] := by
  rw [run_views ext views hnew hz hlen]
  simp only [List.cons_append, startCalls_append]
  have h1 := startCalls_of_isMarshal _ (marshalTrace_isMarshal views 0)
  have h2 := startCalls_deleteBuf 0 views.length
  simp only [startCalls] at h1 h2 ⊢
  simp [h1, h2]

theorem mem_marshalTrace (views : List (List Nat)) (k : Nat) (e : Event) :
    e ∈ marshalTrace k views ↔ ∃ i bs, views[i]? = some bs ∧ e ∈ elementTrace (k + i) bs := by
  induction views generalizing k with
  | nil => simp [marshalTrace]
  | cons v rest ih =>
    simp only [marshalTrace, List.mem_append, ih (k + 1)]
    constructor
    · rintro (h | ⟨i, bs, hi, he⟩)
      · exact ⟨0, v, by simp, by simpa using h⟩
      · exact ⟨i + 1, bs, by simpa using hi, by
          have : k + (i + 1) = k + 1 + i := by omega
          rw [this]; exact he⟩
    · rintro ⟨i, bs, hi, he⟩
      cases i with
      | zero =>
        simp at hi
        subst hi
        left; simpa using he
      | succ i =>
        right
        refine ⟨i, bs, by simpa using hi, ?_⟩
        have : k + (i + 1) = k + 1 + i := by omega
        rw [this] at he; exact he

/-- C1: when the array is marshalled (every element has a byte view, every
allocation succeeds), the function returns exactly the integer the entry point
returned for the marshalled `(argc, argv)`, whatever that entry point is; and
on every input, a returned status is the value the entry point gave on its one
call. -/
theorem startNode_returns_entry_status (ext : Ext) (views : List (List Nat))
    (hnew : ∀ k, k ≤ views.length → ext.newOk k = true)
    (hz : ∀ bs ∈ views, ∀ b ∈ bs, b ≠ 0) (hlen : ∀ bs ∈ views, bs.length ≤ 2 ^ 31 - 2) :
    (Java_com_example_danmuapiapp_NodeBridge_startNodeWithArguments ext
        (views.map some)).outcome
      = .returned (ext.Start views.length (argvOf views))
    ∧ startCalls (Java_com_example_danmuapiapp_NodeBridge_startNodeWithArguments ext
        (views.map some)).trace = [((views.length : Int), argvOf views)]
    ∧ ∀ (arguments : List JElem) (r : Int),
        (Java_com_example_danmuapiapp_NodeBridge_startNodeWithArguments ext arguments).outcome
          = .returned r →
        ∃ argv,
          startCalls
              (Java_com_example_danmuapiapp_NodeBridge_startNodeWithArguments ext arguments).trace
            = [((arguments.length : Int), argv)]
          ∧ r = ext.Start arguments.length argv := by
  refine ⟨?_, ?_, ?_⟩
  · rw [run_views ext views hnew hz hlen]
  · exact startCalls_run_views ext views hnew hz hlen
  · intro arguments r h
    obtain ⟨t, bufs, ht, _, _, hr, htr⟩ := run_returned_inv ext arguments r h
    refine ⟨bufs.map some, ?_, hr⟩
    rw [htr]
    have h1 := startCalls_of_isMarshal _ ht
    have h2 := startCalls_deleteBuf 0 arguments.length
    simp only [startCalls] at h1 h2 ⊢
    simp [h1, h2]

/-- C1, at the array `["node"]` with an entry point returning 7: the call returns 7. -/
theorem startNode_returns_entry_status_witness :
    (Java_com_example_danmuapiapp_NodeBridge_startNodeWithArguments (stubExt 7)
        [some [110, 111, 100, 101]]).outcome = .returned 7 :=
  (startNode_returns_entry_status (stubExt 7) [[110, 111, 100, 101]]
    (fun _ _ => rfl) (by decide) (by decide)).1

/-- C2: for every number `N` of elements and every array whose elements have
byte views, the entry point is called with `argc = N` and an `argv` of exactly
`N` entries, entry `i` being the bytes of element `i` followed by a zero byte,
in the order of the input. -/
theorem entry_receives_copies (ext : Ext) (views : List (List Nat))
    (hnew : ∀ k, k ≤ views.length → ext.newOk k = true)
    (hz : ∀ bs ∈ views, ∀ b ∈ bs, b ≠ 0) (hlen : ∀ bs ∈ views, bs.length ≤ 2 ^ 31 - 2) :
    ∃ argv : Argv,
      startCalls (Java_com_example_danmuapiapp_NodeBridge_startNodeWithArguments ext
          (views.map some)).trace = [((views.length : Int), argv)]
      ∧ argv.length = views.length
      ∧ (∀ (i : Nat) (bs : List Nat), views[i]? = some bs → argv[i]? = some (some ((bs ++ [0]).map some)))
      ∧ argv = views.map (fun bs => some ((bs ++ [0]).map some)) := by
  refine ⟨argvOf views, startCalls_run_views ext views hnew hz hlen, ?_, ?_, rfl⟩
  · simp [argvOf]
  · intro i bs h
    simp [argvOf, h]

/-- C2, the scenario of the specification: the array `["node", "--version"]`
reaches the entry point as `argc = 2` and the two strings, each followed by a
zero byte. -/
theorem entry_receives_copies_witness :
    ∃ argv : Argv,
      startCalls (Java_com_example_danmuapiapp_NodeBridge_startNodeWithArguments (stubExt 0)
          (nodeVersion.map some)).trace = [(2, argv)]
      ∧ argv.length = 2
      ∧ (∀ (i : Nat) (bs : List Nat), nodeVersion[i]? = some bs → argv[i]? = some (some ((bs ++ [0]).map some)))
      ∧ argv =
          [some [some 110, some 111, some 100, some 101, some 0],
           some [some 45, some 45, some 118, some 101, some 114, some 115, some 105, some 111,
             some 110, some 0]] :=
  entry_receives_copies (stubExt 0) nodeVersion (fun _ _ => rfl) (by decide) (by decide)

/-- C6: for the empty array the function allocates the pointer array, calls the
entry point once with `argc = 0` and no entry, releases the pointer array and
returns the status of the entry point; no buffer is allocated or released. -/
theorem empty_array_run (ext : Ext) (h0 : ext.newOk 0 = true) :
    Java_com_example_danmuapiapp_NodeBridge_startNodeWithArguments ext []
      = ⟨[.newArgv 0, .start 0 [], .deleteArgv], .returned (ext.Start 0 [])⟩
    ∧ startCalls (Java_com_example_danmuapiapp_NodeBridge_startNodeWithArguments ext []).trace
      = [(0, [])]
    ∧ allocations (Java_com_example_danmuapiapp_NodeBridge_startNodeWithArguments ext []).trace
      = [.argv]
    ∧ releases (Java_com_example_danmuapiapp_NodeBridge_startNodeWithArguments ext []).trace
      = [.argv] := by
  have h : Java_com_example_danmuapiapp_NodeBridge_startNodeWithArguments ext []
      = ⟨[.newArgv 0, .start 0 [], .deleteArgv], .returned (ext.Start 0 [])⟩ := by
    simp [Java_com_example_danmuapiapp_NodeBridge_startNodeWithArguments, h0, marshalFrom,
      releaseFrom]
  rw [h]
  exact ⟨rfl, rfl, rfl, rfl⟩

/-- C6, with an entry point returning 3: the empty array gives status 3. -/
theorem empty_array_run_witness :
    Java_com_example_danmuapiapp_NodeBridge_startNodeWithArguments (stubExt 3) []
      = ⟨[.newArgv 0, .start 0 [], .deleteArgv], .returned 3⟩ :=
  (empty_array_run (stubExt 3) rfl).1

/-- C7: every buffer handed to the entry point holds the whole byte encoding
of its element, bytes of `0x80` and more included: it has one cell more than
the encoding has bytes, cell `j` is byte `j` of the encoding, the last cell is
the terminator, and reading the buffer as a C string gives the bytes back. -/
theorem buffers_preserve_content (ext : Ext) (views : List (List Nat))
    (hnew : ∀ k, k ≤ views.length → ext.newOk k = true)
    (hz : ∀ bs ∈ views, ∀ b ∈ bs, b ≠ 0) (hlen : ∀ bs ∈ views, bs.length ≤ 2 ^ 31 - 2) :
    ∃ argv : Argv,
      startCalls (Java_com_example_danmuapiapp_NodeBridge_startNodeWithArguments ext
          (views.map some)).trace = [((views.length : Int), argv)]
      ∧ ∀ (i : Nat) (bs : List Nat), views[i]? = some bs →
          ∃ buf : Buf, argv[i]? = some (some buf)
            ∧ buf.length = bs.length + 1
            ∧ (∀ (j : Nat) (b : Nat), bs[j]? = some b → buf[j]? = some (some b))
            ∧ buf[bs.length]? = some (some 0)
            ∧ readCString buf = some bs := by
  refine ⟨argvOf views, startCalls_run_views ext views hnew hz hlen, ?_⟩
  intro i bs h
  have hmem : bs ∈ views := List.getElem?_mem h
  refine ⟨(bs ++ [0]).map some, by simp [argvOf, h], by simp, ?_, ?_,
    readCString_view bs (hz bs hmem)⟩
  · intro j b hj
    have hlt : j < bs.length := by
      rcases Nat.lt_or_ge j bs.length with hlt | hge
      · exact hlt
      · rw [List.getElem?_eq_none hge] at hj; simp at hj
    have hlt2 : j < (bs.map some).length := by simpa using hlt
    rw [List.map_append, List.getElem?_append_left hlt2, List.getElem?_map, hj]
    rfl
  · simp

/-- C7, at the array `["é", "日本"]`. -/
theorem buffers_preserve_content_witness :
    ∃ argv : Argv,
      startCalls (Java_com_example_danmuapiapp_NodeBridge_startNodeWithArguments (stubExt 0)
          (multiByte.map some)).trace = [(2, argv)]
      ∧ ∀ (i : Nat) (bs : List Nat), multiByte[i]? = some bs →
          ∃ buf : Buf, argv[i]? = some (some buf)
            ∧ buf.length = bs.length + 1
            ∧ (∀ (j : Nat) (b : Nat), bs[j]? = some b → buf[j]? = some (some b))
            ∧ buf[bs.length]? = some (some 0)
            ∧ readCString buf = some bs :=
  buffers_preserve_content (stubExt 0) multiByte (fun _ _ => rfl) (by decide) (by decide)

/-- C9: the trace of a successful call is the allocation of the pointer array,
then for each element in turn its view, its buffer, the copy and the release
of the view, then one call of the entry point, then the release of the buffers
and of the pointer array; so the entry point is called once, after every
buffer is filled and every view released, and nothing is released before it. -/
theorem successful_call_order (ext : Ext) (views : List (List Nat))
    (hnew : ∀ k, k ≤ views.length → ext.newOk k = true)
    (hz : ∀ bs ∈ views, ∀ b ∈ bs, b ≠ 0) (hlen : ∀ bs ∈ views, bs.length ≤ 2 ^ 31 - 2) :
    ∃ (before after : List Event) (argv : Argv),
      (Java_com_example_danmuapiapp_NodeBridge_startNodeWithArguments ext
          (views.map some)).trace = before ++ [.start views.length argv] ++ after
      ∧ startCalls before = [] ∧ startCalls after = []
      ∧ (∀ (i : Nat) (bs : List Nat), views[i]? = some bs →
          Event.newBuf i (bs.length + 1) ∈ before
          ∧ Event.strcpy i ((bs ++ [0]).map some) ∈ before
          ∧ Event.releaseChars i ∈ before)
      ∧ (∀ (i : Nat) (str : JElem), Event.getChars i str ∈ before →
          Event.releaseChars i ∈ before)
      ∧ releases before = []
      ∧ releases after = (List.range views.length).map Block.buf ++ [.argv] := by
  refine ⟨.newArgv views.length :: marshalTrace 0 views,
    (List.range' 0 views.length).map Event.deleteBuf ++ [.deleteArgv], argvOf views, ?_, ?_, ?_,
    ?_, ?_, ?_, ?_⟩
  · rw [run_views ext views hnew hz hlen]
    simp
  · have h1 := startCalls_of_isMarshal _ (marshalTrace_isMarshal views 0)
    simp only [startCalls] at h1 ⊢
    simp [h1]
  · rw [startCalls_append, startCalls_deleteBuf]
    simp [startCalls]
  · intro i bs h
    have hm := fun e => (mem_marshalTrace views 0 e).2
    refine ⟨?_, ?_, ?_⟩ <;>
    · apply List.mem_cons_of_mem
      apply hm
      exact ⟨i, bs, h, by simp [elementTrace]⟩
  · intro i str h
    simp only [List.mem_cons] at h
    rcases h with h | h
    · simp at h
    · obtain ⟨k, bs, hk, he⟩ := (mem_marshalTrace views 0 _).1 h
      apply List.mem_cons_of_mem
      apply (mem_marshalTrace views 0 _).2
      refine ⟨k, bs, hk, ?_⟩
      simp [elementTrace] at he ⊢
      exact he.1
  · have h1 := releases_of_isMarshal _ (marshalTrace_isMarshal views 0)
    simp only [releases] at h1 ⊢
    simp [h1]
  · rw [releases_append, releases_deleteBuf, List.range_eq_range']
    simp [releases]

/-- C9, at the array `["node", "--version"]`. -/
theorem successful_call_order_witness :
    ∃ (before after : List Event) (argv : Argv),
      (Java_com_example_danmuapiapp_NodeBridge_startNodeWithArguments (stubExt 0)
          (nodeVersion.map some)).trace = before ++ [.start 2 argv] ++ after
      ∧ startCalls before = [] ∧ startCalls after = []
      ∧ (∀ (i : Nat) (bs : List Nat), nodeVersion[i]? = some bs →
          Event.newBuf i (bs.length + 1) ∈ before
          ∧ Event.strcpy i ((bs ++ [0]).map some) ∈ before
          ∧ Event.releaseChars i ∈ before)
      ∧ (∀ (i : Nat) (str : JElem), Event.getChars i str ∈ before →
          Event.releaseChars i ∈ before)
      ∧ releases before = []
      ∧ releases after = [.buf 0, .buf 1, .argv] :=
  successful_call_order (stubExt 0) nodeVersion (fun _ _ => rfl) (by decide) (by decide)

theorem allocations_run_views (ext : Ext) (views : List (List Nat))
    (hnew : ∀ k, k ≤ views.length → ext.newOk k = true)
    (hz : ∀ bs ∈ views, ∀ b ∈ bs, b ≠ 0) (hlen : ∀ bs ∈ views, bs.length ≤ 2 ^ 31 - 2) :
    allocations (Java_com_example_danmuapiapp_NodeBridge_startNodeWithArguments ext
        (views.map some)).trace = .argv :: (List.range views.length).map Block.buf := by
  rw [run_views ext views hnew hz hlen]
  simp only [List.cons_append, allocations_append]
  have h1 := allocations_marshalTrace views 0
  have h2 := allocations_deleteBuf 0 views.length
  rw [List.range_eq_range']
  simp only [allocations] at h1 h2 ⊢
  simp [h1, h2]

theorem releases_run_views (ext : Ext) (views : List (List Nat))
    (hnew : ∀ k, k ≤ views.length → ext.newOk k = true)
    (hz : ∀ bs ∈ views, ∀ b ∈ bs, b ≠ 0) (hlen : ∀ bs ∈ views, bs.length ≤ 2 ^ 31 - 2) :
    releases (Java_com_example_danmuapiapp_NodeBridge_startNodeWithArguments ext
        (views.map some)).trace = (List.range views.length).map Block.buf ++ [.argv] := by
  rw [run_views ext views hnew hz hlen]
  simp only [List.cons_append, releases_append]
  have h1 := releases_of_isMarshal _ (marshalTrace_isMarshal views 0)
  have h2 := releases_deleteBuf 0 views.length
  rw [List.range_eq_range']
  simp only [releases] at h1 h2 ⊢
  simp [h1, h2]

theorem releases_run_failed (ext : Ext) (arguments : List JElem) (f : Fault)
    (h : (Java_com_example_danmuapiapp_NodeBridge_startNodeWithArguments ext arguments).outcome
          = .failed f) :
    releases (Java_com_example_danmuapiapp_NodeBridge_startNodeWithArguments ext arguments).trace
      = [] := by
  rcases run_failed_inv ext arguments f h with h1 | ⟨t, ht, h1⟩
  · rw [h1]; rfl
  · rw [h1]
    have := releases_of_isMarshal t ht
    simp only [releases] at this ⊢
    simp [this]

theorem startCalls_run_failed (ext : Ext) (arguments : List JElem) (f : Fault)
    (h : (Java_com_example_danmuapiapp_NodeBridge_startNodeWithArguments ext arguments).outcome
          = .failed f) :
    startCalls (Java_com_example_danmuapiapp_NodeBridge_startNodeWithArguments ext arguments).trace
      = [] := by
  rcases run_failed_inv ext arguments f h with h1 | ⟨t, ht, h1⟩
  · rw [h1]; rfl
  · rw [h1]
    have := startCalls_of_isMarshal t ht
    simp only [startCalls] at this ⊢
    simp [this]

/-- C10: for a view of `L ≤ 2^31 - 2` bytes before its terminator, `len` is
`L`, the buffer has `L + 1` cells and the copy writes cells `0..L` of it (the
bytes, then a zero), none outside; for `L ≥ 2^31` the conversion to `int`
wraps modulo `2^32` and the size asked is no longer `L + 1`. -/
theorem buffer_size_and_copy (bs : List Nat) (hz : ∀ b ∈ bs, b ≠ 0) (L : Nat) :
    (bs.length ≤ 2 ^ 31 - 2 →
      strlen (bs ++ [0]) = some bs.length
      ∧ toInt32 bs.length = (bs.length : Int)
      ∧ newSize bs.length = .ok (bs.length + 1)
      ∧ strcpy (List.replicate (bs.length + 1) none) (bs ++ [0]) = some ((bs ++ [0]).map some)
      ∧ ∀ (ext : Ext) (i : Nat) (argv : Argv), ext.newOk (i + 1) = true →
          convertElement ext i (some bs) argv
            = ([.getChars i (some bs), .newBuf i (bs.length + 1),
                .strcpy i ((bs ++ [0]).map some), .releaseChars i],
               .ok (argv.set i (some ((bs ++ [0]).map some)))))
    ∧ (2 ^ 31 ≤ L →
      toInt32 L ≠ (L : Int)
      ∧ ((L : Int) - toInt32 L) % 2 ^ 32 = 0
      ∧ ∀ size : Nat, newSize L = .ok size → size ≠ L + 1) := by
  constructor
  · intro hlen
    refine ⟨strlen_view bs hz, toInt32_of_lt _ (by omega), newSize_of_le _ hlen,
      strcpy_view bs hz, ?_⟩
    intro ext i argv hnew
    exact convertElement_view ext i bs argv hnew hz hlen
  · intro hL
    have h1 := toInt32_lt L
    refine ⟨by omega, toInt32_modEq L, ?_⟩
    intro size hs
    have := newSize_ok_inv L size hs
    omega

/-- C10, at the view of `"node"` and at a length of `2^32`. -/
theorem buffer_size_and_copy_witness :
    (strlen ([110, 111, 100, 101] ++ [0]) = some 4
      ∧ toInt32 4 = 4
      ∧ newSize 4 = .ok 5
      ∧ strcpy (List.replicate 5 none) ([110, 111, 100, 101] ++ [0])
          = some [some 110, some 111, some 100, some 101, some 0])
    ∧ toInt32 (2 ^ 32) ≠ ((2 ^ 32 : Nat) : Int)
    ∧ ∀ size : Nat, newSize (2 ^ 32) = .ok size → size ≠ 2 ^ 32 + 1 :=
  have h := buffer_size_and_copy [110, 111, 100, 101] (by decide) (2 ^ 32)
  have h1 := h.1 (by decide)
  have h2 := h.2 (by decide)
  ⟨⟨h1.1, h1.2.1, h1.2.2.1, h1.2.2.2.1⟩, h2.1, h2.2.2⟩

/-- C3, refuted as stated: when the second buffer cannot be allocated, the
pointer array and the first buffer have been allocated and nothing has been
released when control leaves the function. -/
theorem allocation_failure_leaks :
    (Java_com_example_danmuapiapp_NodeBridge_startNodeWithArguments (failAfter 1)
        [some [97], some [98]]).outcome = .failed .badAlloc
    ∧ allocations (Java_com_example_danmuapiapp_NodeBridge_startNodeWithArguments (failAfter 1)
        [some [97], some [98]]).trace = [.argv, .buf 0]
    ∧ releases (Java_com_example_danmuapiapp_NodeBridge_startNodeWithArguments (failAfter 1)
        [some [97], some [98]]).trace = [] := by
  decide

/-- C3, amended: on the successful path the allocations and the releases
balance, every buffer and the pointer array being released once, the buffers
in index order and then the array; on every path that does not return, nothing
is released. -/
theorem allocations_balance_on_return (ext : Ext) (views : List (List Nat))
    (hnew : ∀ k, k ≤ views.length → ext.newOk k = true)
    (hz : ∀ bs ∈ views, ∀ b ∈ bs, b ≠ 0) (hlen : ∀ bs ∈ views, bs.length ≤ 2 ^ 31 - 2) :
    (allocations (Java_com_example_danmuapiapp_NodeBridge_startNodeWithArguments ext
        (views.map some)).trace = .argv :: (List.range views.length).map Block.buf
      ∧ releases (Java_com_example_danmuapiapp_NodeBridge_startNodeWithArguments ext
        (views.map some)).trace = (List.range views.length).map Block.buf ++ [.argv]
      ∧ (allocations (Java_com_example_danmuapiapp_NodeBridge_startNodeWithArguments ext
          (views.map some)).trace).length
        = (releases (Java_com_example_danmuapiapp_NodeBridge_startNodeWithArguments ext
          (views.map some)).trace).length)
    ∧ ∀ (arguments : List JElem) (f : Fault),
        (Java_com_example_danmuapiapp_NodeBridge_startNodeWithArguments ext arguments).outcome
          = .failed f →
        releases (Java_com_example_danmuapiapp_NodeBridge_startNodeWithArguments ext
          arguments).trace = [] := by
  have ha := allocations_run_views ext views hnew hz hlen
  have hr := releases_run_views ext views hnew hz hlen
  refine ⟨⟨ha, hr, ?_⟩, fun arguments f h => releases_run_failed ext arguments f h⟩
  rw [ha, hr]
  simp

/-- C3 amended, at the array `["node", "--version"]`. -/
theorem allocations_balance_on_return_witness :
    allocations (Java_com_example_danmuapiapp_NodeBridge_startNodeWithArguments (stubExt 0)
        (nodeVersion.map some)).trace = [.argv, .buf 0, .buf 1]
    ∧ releases (Java_com_example_danmuapiapp_NodeBridge_startNodeWithArguments (stubExt 0)
        (nodeVersion.map some)).trace = [.buf 0, .buf 1, .argv] :=
  have h := (allocations_balance_on_return (stubExt 0) nodeVersion (fun _ _ => rfl)
    (by decide) (by decide)).1
  ⟨h.1, h.2.1⟩

theorem startCalls_runProcess_views (calls : List (Ext × List (List Nat)))
    (h : ∀ c ∈ calls, (∀ k, k ≤ c.2.length → c.1.newOk k = true)
        ∧ (∀ bs ∈ c.2, ∀ b ∈ bs, b ≠ 0) ∧ (∀ bs ∈ c.2, bs.length ≤ 2 ^ 31 - 2)) :
    startCalls (runProcess (calls.map (fun c => (c.1, c.2.map some))))
      = calls.map (fun c => ((c.2.length : Int), argvOf c.2)) := by
  induction calls with
  | nil => rfl
  | cons c rest ih =>
    obtain ⟨hnew, hz, hlen⟩ := h c (by simp)
    have ih1 := ih (fun d hd => h d (by simp [hd]))
    have hs := startCalls_run_views c.1 c.2 hnew hz hlen
    have hr := run_views c.1 c.2 hnew hz hlen
    have ho : (Java_com_example_danmuapiapp_NodeBridge_startNodeWithArguments c.1
        (c.2.map some)).outcome = .returned (c.1.Start c.2.length (argvOf c.2)) := by
      rw [hr]
    simp only [List.map_cons, runProcess, ho, startCalls_append, hs, ih1]
    rfl

/-- C4, refuted as stated: when the buffer of element 2 cannot be allocated,
the call ends in `std::bad_alloc` with the pointer array and the buffers of
elements 0 and 1 allocated and none of them released. -/
theorem buffer_failure_releases_nothing :
    (Java_com_example_danmuapiapp_NodeBridge_startNodeWithArguments (failAfter 2)
        [some [97], some [98], some [99]]).outcome = .failed .badAlloc
    ∧ allocations (Java_com_example_danmuapiapp_NodeBridge_startNodeWithArguments (failAfter 2)
        [some [97], some [98], some [99]]).trace = [.argv, .buf 0, .buf 1]
    ∧ Block.buf 0 ∉ releases
        (Java_com_example_danmuapiapp_NodeBridge_startNodeWithArguments (failAfter 2)
          [some [97], some [98], some [99]]).trace
    ∧ Block.buf 1 ∉ releases
        (Java_com_example_danmuapiapp_NodeBridge_startNodeWithArguments (failAfter 2)
          [some [97], some [98], some [99]]).trace
    ∧ Block.argv ∉ releases
        (Java_com_example_danmuapiapp_NodeBridge_startNodeWithArguments (failAfter 2)
          [some [97], some [98], some [99]]).trace := by
  decide

/-- C4, amended: when the buffer of element `k` cannot be allocated, the
elements before it having been converted, the call returns no status and does
not call the entry point; `std::bad_alloc` leaves the function at once, with
the pointer array and the `k` buffers of elements `0..k-1` allocated and
nothing released. -/
theorem buffer_failure_propagates (ext : Ext) (views : List (List Nat)) (bs : List Nat)
    (rest : List JElem)
    (hnew : ∀ k, k ≤ views.length → ext.newOk k = true)
    (hfail : ext.newOk (views.length + 1) = false)
    (hz : ∀ v ∈ views, ∀ b ∈ v, b ≠ 0) (hlen : ∀ v ∈ views, v.length ≤ 2 ^ 31 - 2)
    (hz1 : ∀ b ∈ bs, b ≠ 0) (hlen1 : bs.length ≤ 2 ^ 31 - 2) :
    (Java_com_example_danmuapiapp_NodeBridge_startNodeWithArguments ext
        (views.map some ++ some bs :: rest)).outcome = .failed .badAlloc
    ∧ startCalls (Java_com_example_danmuapiapp_NodeBridge_startNodeWithArguments ext
        (views.map some ++ some bs :: rest)).trace = []
    ∧ allocations (Java_com_example_danmuapiapp_NodeBridge_startNodeWithArguments ext
        (views.map some ++ some bs :: rest)).trace
        = .argv :: (List.range views.length).map Block.buf
    ∧ releases (Java_com_example_danmuapiapp_NodeBridge_startNodeWithArguments ext
        (views.map some ++ some bs :: rest)).trace = [] := by
  have hr := run_badAlloc ext views bs rest hnew hfail hz hlen hz1 hlen1
  have ho : (Java_com_example_danmuapiapp_NodeBridge_startNodeWithArguments ext
        (views.map some ++ some bs :: rest)).outcome = .failed .badAlloc := by rw [hr]
  refine ⟨ho, startCalls_run_failed _ _ _ ho, ?_, releases_run_failed _ _ _ ho⟩
  rw [hr]
  have h1 := allocations_marshalTrace views 0
  rw [List.range_eq_range']
  simp only [List.cons_append, allocations_append]
  simp only [allocations] at h1 ⊢
  simp [h1]

/-- C4 amended, at three elements with the allocation of the third buffer failing. -/
theorem buffer_failure_propagates_witness :
    (Java_com_example_danmuapiapp_NodeBridge_startNodeWithArguments (failAfter 2)
        ([[97], [98]].map some ++ some [99] :: [some [100]])).outcome = .failed .badAlloc
    ∧ startCalls (Java_com_example_danmuapiapp_NodeBridge_startNodeWithArguments (failAfter 2)
        ([[97], [98]].map some ++ some [99] :: [some [100]])).trace = []
    ∧ allocations (Java_com_example_danmuapiapp_NodeBridge_startNodeWithArguments (failAfter 2)
        ([[97], [98]].map some ++ some [99] :: [some [100]])).trace = [.argv, .buf 0, .buf 1]
    ∧ releases (Java_com_example_danmuapiapp_NodeBridge_startNodeWithArguments (failAfter 2)
        ([[97], [98]].map some ++ some [99] :: [some [100]])).trace = [] :=
  buffer_failure_propagates (failAfter 2) [[97], [98]] [99] [some [100]]
    (by decide) (by decide) (by decide) (by decide) (by decide) (by decide)

/-- C5, refuted as stated: on an array whose element has no byte view the call
ends in undefined behaviour (the null pointer goes to `strlen`), which tells
the caller nothing. -/
theorem null_view_is_not_signalled :
    (Java_com_example_danmuapiapp_NodeBridge_startNodeWithArguments (stubExt 0)
        [none]).outcome = .failed .undefined
    ∧ (Java_com_example_danmuapiapp_NodeBridge_startNodeWithArguments (stubExt 0)
        [none]).outcome.isSignal = false := by
  decide

/-- C5, amended: when some element has no byte view, the call returns no
status and never calls the entry point; when the elements before the first
such element were converted, the call ends in undefined behaviour, the null
pointer having been handed to `strlen`. -/
theorem null_view_never_starts (ext : Ext) (arguments : List JElem)
    (hnull : none ∈ arguments) :
    (∃ f, (Java_com_example_danmuapiapp_NodeBridge_startNodeWithArguments ext
        arguments).outcome = .failed f)
    ∧ startCalls (Java_com_example_danmuapiapp_NodeBridge_startNodeWithArguments ext
        arguments).trace = []
    ∧ ∀ (views : List (List Nat)) (rest : List JElem),
        arguments = views.map some ++ none :: rest →
        (∀ k, k ≤ views.length → ext.newOk k = true) →
        (∀ v ∈ views, ∀ b ∈ v, b ≠ 0) → (∀ v ∈ views, v.length ≤ 2 ^ 31 - 2) →
        Java_com_example_danmuapiapp_NodeBridge_startNodeWithArguments ext arguments
          = ⟨.newArgv arguments.length :: marshalTrace 0 views
                ++ [.getChars views.length none],
              .failed .undefined⟩ := by
  have hf : ∃ f, (Java_com_example_danmuapiapp_NodeBridge_startNodeWithArguments ext
        arguments).outcome = .failed f := by
    cases ho : (Java_com_example_danmuapiapp_NodeBridge_startNodeWithArguments ext
        arguments).outcome with
    | returned r =>
      obtain ⟨_, _, _, _, hall, _, _⟩ := run_returned_inv ext arguments r ho
      exact absurd rfl (hall none hnull)
    | failed f => exact ⟨f, rfl⟩
  obtain ⟨f, ho⟩ := hf
  refine ⟨⟨f, ho⟩, startCalls_run_failed _ _ _ ho, ?_⟩
  intro views rest harg hnew hz hlen
  subst harg
  rw [run_null ext views rest hnew hz hlen]
  simp

/-- C5 amended, at the array `["node", null]`. -/
theorem null_view_never_starts_witness :
    startCalls (Java_com_example_danmuapiapp_NodeBridge_startNodeWithArguments (stubExt 0)
        [some [110, 111, 100, 101], none]).trace = []
    ∧ Java_com_example_danmuapiapp_NodeBridge_startNodeWithArguments (stubExt 0)
        [some [110, 111, 100, 101], none]
      = ⟨[.newArgv 2, .getChars 0 (some [110, 111, 100, 101]), .newBuf 0 5,
          .strcpy 0 [some 110, some 111, some 100, some 101, some 0], .releaseChars 0,
          .getChars 1 none], .failed .undefined⟩ :=
  have h := null_view_never_starts (stubExt 0) [some [110, 111, 100, 101], none] (by decide)
  ⟨h.2.1, h.2.2 [[110, 111, 100, 101]] [] rfl (fun _ _ => rfl) (by decide) (by decide)⟩

/-- C8, refuted as stated: two calls in one process both reach the entry point. -/
theorem second_call_starts_again :
    (startCalls (runProcess [(stubExt 0, [some [110, 111, 100, 101]]),
        (stubExt 0, [some [110, 111, 100, 101]])])).length = 2
    ∧ ¬ (startCalls (runProcess [(stubExt 0, [some [110, 111, 100, 101]]),
        (stubExt 0, [some [110, 111, 100, 101]])])).length ≤ 1 := by
  decide

/-- C8, amended: the function has no guard and keeps no state between calls;
over a sequence of calls that each marshal their array, every call reaches
the entry point, so `k` calls start it `k` times. -/
theorem every_call_starts_entry (calls : List (Ext × List (List Nat)))
    (h : ∀ c ∈ calls, (∀ k, k ≤ c.2.length → c.1.newOk k = true)
        ∧ (∀ bs ∈ c.2, ∀ b ∈ bs, b ≠ 0) ∧ (∀ bs ∈ c.2, bs.length ≤ 2 ^ 31 - 2)) :
    startCalls (runProcess (calls.map (fun c => (c.1, c.2.map some))))
      = calls.map (fun c => ((c.2.length : Int), argvOf c.2))
    ∧ (startCalls (runProcess (calls.map (fun c => (c.1, c.2.map some))))).length
      = calls.length := by
  have hs := startCalls_runProcess_views calls h
  refine ⟨hs, ?_⟩
  rw [hs]
  simp

/-- C8 amended, at three calls with the array `["node"]`. -/
theorem every_call_starts_entry_witness :
    (startCalls (runProcess ([(stubExt 0, [[110, 111, 100, 101]]),
        (stubExt 1, [[110, 111, 100, 101]]), (stubExt 2, [[110, 111, 100, 101]])].map
          (fun c => (c.1, c.2.map some))))).length = 3 :=
  (every_call_starts_entry [(stubExt 0, [[110, 111, 100, 101]]),
    (stubExt 1, [[110, 111, 100, 101]]), (stubExt 2, [[110, 111, 100, 101]])]
    (by
      intro c hc
      simp only [List.mem_cons, List.mem_singleton, List.not_mem_nil, or_false] at hc
      rcases hc with hc | hc | hc <;> subst hc <;>
        exact ⟨fun _ _ => rfl, by decide, by decide⟩)).2

end NativeLib
